import Mathlib

/-!
Verification of the flogin plugin SDK's JSON-RPC core against its
natural-language specification.  Shallow embedding of the relevant parts of
`flogin/jsonrpc/{errors,enums,client,responses,results}.py`,
`flogin/plugin.py`, `flogin/conditions.py` and `flogin/query.py`.
-/

namespace Flogin

/-! ## Error codes and exception classification (`jsonrpc/enums.py`, `jsonrpc/errors.py`) -/

/- The integer values of `ErrorCode` (`jsonrpc/enums.py`). -/
namespace ErrorCode

def parser_error : Int := -32700
def invalid_request : Int := -32600
def method_not_found : Int := -32601
def invalid_params : Int := -32602
def internal_error : Int := -32603
/-- In the source the comment reads: server error is a range, -32099 through -32000. -/
def server_error_start : Int := -32000
def server_error_end : Int := -32099

end ErrorCode

/-- The distinct exception classes of `jsonrpc/errors.py`; `generic` is the
base class `JsonRPCException` itself. -/
inductive ExcClass
  | parserError
  | invalidRequest
  | methodNotFound
  | invalidParams
  | internalError
  | flowError
  | generic
  deriving DecidableEq, Repr

/-- The exception built by `get_exception_from_json`, reduced to its class and
the integer code it ends up carrying. -/
structure Exc where
  cls : ExcClass
  code : Int
  deriving DecidableEq, Repr

/-- The class attribute read in the loop of `get_exception_from_json`: each of
the five fixed classes carries its fixed code; `FlowError.code` is
`server_error_start`. -/
def ExcClass.fixedCode : ExcClass → Int
  | .parserError => ErrorCode.parser_error
  | .invalidRequest => ErrorCode.invalid_request
  | .methodNotFound => ErrorCode.method_not_found
  | .invalidParams => ErrorCode.invalid_params
  | .internalError => ErrorCode.internal_error
  | .flowError => ErrorCode.server_error_start
  | .generic => 0

/-- `get_exception_from_json` (`jsonrpc/errors.py`, lines 159-179), with the
payload reduced to its `code` field.  The loop tries the five fixed classes in
the source's order and returns the first whose class code equals `code`;
otherwise the range test
`server_error_start.value <= code <= server_error_end.value` picks between
`FlowError` and the generic `JsonRPCException`, and `error.code = code`
overwrites the class code with the raw one. -/
def get_exception_from_json (code : Int) : Exc :=
  let fixed : List ExcClass :=
    [.parserError, .invalidParams, .invalidRequest, .methodNotFound, .internalError]
  match fixed.find? (fun cls => code = cls.fixedCode) with
  | some cls => { cls := cls, code := cls.fixedCode }
  | none =>
      if ErrorCode.server_error_start ≤ code ∧ code ≤ ErrorCode.server_error_end then
        { cls := .flowError, code := code }
      else
        { cls := .generic, code := code }

/-! ## `Query.keyword` (`query.py`, lines 71-73) -/

/-- The raw query payload sent by the host (`query.py`, `RawQuery`). -/
structure RawQuery where
  search : String
  rawQuery : String
  isReQuery : Bool
  actionKeyword : String
  deriving DecidableEq, Repr

/-- `Query.keyword`: `self._data["actionKeyword"] or "*"`.  On a Python `str`,
`or` returns the right operand exactly when the left one is empty. -/
def Query.keyword (data : RawQuery) : String :=
  if data.actionKeyword = "" then "*" else data.actionKeyword

/-! ## Conditions and `Query.condition_data` (`conditions.py`, `query.py`) -/

/-- Values that can occupy the `Query.condition_data` slot.  `base` stands for
arbitrary auxiliary data a leaf condition may set (a regex match, etc.);
`dict` is the mapping `AllCondition.__call__` builds, keyed by the Python
identity of each sub-condition. -/
inductive CData
  | base (n : Nat)
  | dict (entries : List (Nat × Option CData))

/-- A search-handler condition as the Python callable it is: given the query
payload and the current `condition_data` slot it returns its boolean verdict
and the slot's new contents (a condition that does not touch the slot returns
it unchanged).  `ident` models the object identity `AllCondition` uses as the
dictionary key. -/
structure Cond where
  ident : Nat
  run : RawQuery → Option CData → Bool × Option CData

/-- Python `dict` assignment `d[k] = v`: update the entry when the key is
present, append otherwise. -/
def dictAssign (entries : List (Nat × Option CData)) (k : Nat) (v : Option CData) :
    List (Nat × Option CData) :=
  if entries.any (fun e => e.1 = k) then
    entries.map (fun e => if e.1 = k then (k, v) else e)
  else entries ++ [(k, v)]

/-- The loop body of `AllCondition.__call__` (`conditions.py`, lines 90-99):
run each sub-condition, short-circuit on `False`, capture the slot keyed by
the sub-condition, then reset the slot to `None`; after the loop store the
captured mapping in the slot.  Returns the verdict and the final slot. -/
def AllCondition.go (q : RawQuery) :
    List Cond → Option CData → List (Nat × Option CData) → Bool × Option CData
  | [], _, acc => (true, some (.dict acc))
  | c :: cs, slot, acc =>
    let r := c.run q slot
    if r.1 = false then (false, r.2)
    else AllCondition.go q cs none (dictAssign acc c.ident r.2)

/-- `AllCondition.__call__(query)` with the mutable query reduced to its
payload and its `condition_data` slot. -/
def AllCondition.call (conds : List Cond) (q : RawQuery) (slot : Option CData) :
    Bool × Option CData :=
  AllCondition.go q conds slot []

/-- Instrumented replay of the same loop recording the slot contents each
sub-condition observes on entry (the loop stops after the first `False`). -/
def AllCondition.entrySlots (q : RawQuery) :
    List Cond → Option CData → List (Option CData)
  | [], _ => []
  | c :: cs, slot =>
    let r := c.run q slot
    if r.1 = false then [slot]
    else slot :: AllCondition.entrySlots q cs none

/-! ## Results and result normalization (`jsonrpc/results.py`, `plugin.py`) -/

/-- The fields of `Result` that `from_dict` / `from_anything` fill
(`jsonrpc/results.py`); the Python constructor defaults every field to
`None`. -/
structure Result where
  title : Option String := none
  sub : Option String := none
  icon : Option String := none
  deriving DecidableEq, Repr

/-- The wire-format result dictionary fields read by `Result.from_dict`. -/
structure RawResult where
  title : Option String := none
  subTitle : Option String := none
  icoPath : Option String := none
  deriving DecidableEq, Repr

/-- `Result.from_dict`: `cls(title=data.get("title"), sub=data.get("subTitle"),
icon=data.get("icoPath"), ...)`. -/
def Result.from_dict (data : RawResult) : Result :=
  { title := data.title, sub := data.subTitle, icon := data.icoPath }

/-- A `ConvertableToResult` item: the Python value is a dict, a `Result`
instance, or anything else (stringified by `from_anything`; we record the
string `str(item)` yields, so a handler's literal string is its own image). -/
inductive ConvItem
  | dict (d : RawResult)
  | res (r : Result)
  | str (s : String)
  deriving DecidableEq, Repr

/-- `Result.from_anything` (`jsonrpc/results.py`, lines 431-437). -/
def Result.from_anything : ConvItem → Result
  | .dict d => Result.from_dict d
  | .res r => r
  | .str s => { title := some s }

/-- An `ErrorResponse` (`jsonrpc/responses.py`). -/
structure ErrorResponse where
  code : Int
  message : String
  data : Option String := none
  deriving DecidableEq, Repr

/-- The value a search-handler / context-menu callback resolves to once
`coro_or_gen` has run it: `None`, an `ErrorResponse`, a bare item, or a list
of items (an async generator is collected into a list by `coro_or_gen`). -/
inductive HandlerRet
  | noneV
  | errorResponse (e : ErrorResponse)
  | single (item : ConvItem)
  | list (items : List ConvItem)
  deriving DecidableEq, Repr

/-- `Plugin._coro_or_gen_to_results` (`plugin.py`, lines 255-272), reduced to
the value it returns: `None` gives the empty list, an `ErrorResponse` is
returned as-is, a non-list value is wrapped into a one-element list, and each
item is converted by `Result.from_anything` and appended in order. -/
def coro_or_gen_to_results : HandlerRet → (List Result) ⊕ ErrorResponse
  | .noneV => .inl []
  | .errorResponse e => .inr e
  | .single item => .inl ([item].map Result.from_anything)
  | .list items => .inl (items.map Result.from_anything)

/-! ## Search handler selection (`plugin.py`, `process_search_handlers`) -/

/-- A registered `SearchHandler`, reduced to its condition and the value its
callback resolves to for a given query. -/
structure SearchHandler where
  cond : RawQuery → Bool
  callback : RawQuery → HandlerRet

/-- A `QueryResponse` (`jsonrpc/responses.py`), reduced to the result list it
carries (`settingsChange` / `debugMessage` are out of the modelled core). -/
structure QueryResponse where
  results : List Result
  deriving DecidableEq, Repr

/-- The loop of `Plugin.process_search_handlers` (`plugin.py`, lines 310-330),
instrumented with the number of conditions evaluated and the index of the
handler whose callback was invoked: walk the registered handlers in order,
evaluate each condition, and on the first `True` run that handler's callback
through `_coro_or_gen_to_results` and `break`.  `results` starts as `[]`. -/
def searchHandlersLoop (q : RawQuery) :
    List SearchHandler → Nat → ((List Result) ⊕ ErrorResponse) × Nat × Option Nat
  | [], idx => (.inl [], idx, none)
  | h :: hs, idx =>
    if h.cond q then (coro_or_gen_to_results (h.callback q), idx + 1, some idx)
    else
      let r := searchHandlersLoop q hs (idx + 1)
      (r.1, r.2.1, r.2.2)

/-- `Plugin.process_search_handlers`: run the loop, then return the
`ErrorResponse` unchanged if that is what the winning callback produced, and a
`QueryResponse` over the collected results otherwise.  Alongside the response
it reports how many conditions were evaluated and which handler's callback
ran. -/
def process_search_handlers (handlers : List SearchHandler) (q : RawQuery) :
    (QueryResponse ⊕ ErrorResponse) × Nat × Option Nat :=
  let r := searchHandlersLoop q handlers 0
  (match r.1 with
   | .inl results => .inl { results := results }
   | .inr e => .inr e, r.2.1, r.2.2)

/-! ## Action dispatch (`plugin.py`, `process_action`; `jsonrpc/responses.py`,
`ExecuteResponse`; `jsonrpc/client.py`, `handle_request`) -/

/-- `ExecuteResponse` (`jsonrpc/responses.py`, lines 130-145); `hide` defaults
to `True`. -/
structure ExecuteResponse where
  hide : Bool := true
  deriving DecidableEq, Repr

/-- The value a result-click callback resolves to (`bool`, `None`, or an
`ExecuteResponse`; exceptions go through the error hook, outside this
slice). -/
inductive ActionRet
  | bool (b : Bool)
  | noneV
  | resp (r : ExecuteResponse)
  deriving DecidableEq, Repr

/-- `Plugin._action_callback_wrapper` (`plugin.py`, lines 332-340): a `bool`
is wrapped as `ExecuteResponse(hide=value)`, `None` as `ExecuteResponse()`
(so `hide=True`), anything else is returned as-is. -/
def action_callback_wrapper : ActionRet → ExecuteResponse
  | .bool b => { hide := b }
  | .noneV => {}
  | .resp r => r

/-- Python `str.startswith(p)`. -/
def pyStartsWith (s p : String) : Bool :=
  s.data.take p.data.length = p.data

/-- Python `str.removeprefix(p)`: drop `len(p)` characters when `p` is a
prefix, return the string unchanged otherwise. -/
def pyRemovePfx (s p : String) : String :=
  if pyStartsWith s p then ⟨s.data.drop p.data.length⟩ else s

/-- `Plugin.process_action` (`plugin.py`, lines 342-354) with the results
registry `self._results` reduced to slug ↦ what the registered `Result`'s
callback resolves to: strip the `flogin.action.` prefix, look the slug up, and
when present schedule `_action_callback_wrapper(result.callback)`. -/
def process_action (registry : List (String × ActionRet)) (method : String) :
    Option ExecuteResponse :=
  let slug := pyRemovePfx method "flogin.action."
  match registry.lookup slug with
  | none => none
  | some ret => some (action_callback_wrapper ret)

/-- The body of a response frame written back to the host; `error` carries the
code and message of the `ErrorResponse` (`to_dict` nests them under
`"error"`, an `ExecuteResponse` nests `hide` under `"result"`). -/
inductive RespBody
  | executeResult (hide : Bool)
  | queryResult (results : List Result)
  | error (code : Int) (message : String)
  deriving DecidableEq, Repr

/-- A frame written by `JsonRPCClient.write`: `to_message(id=request["id"])`
addresses the body to the request's id. -/
structure Frame where
  id : Int
  body : RespBody
  deriving DecidableEq, Repr

/-- The action slice of `JsonRPCClient.handle_request` (`jsonrpc/client.py`,
lines 117-142): when the method starts with `flogin.action` the task is
`process_action(method)`; when that yields a task, its awaited
`ExecuteResponse` (a `BaseResponse`) is written as
`result.to_message(id=request["id"])`.  `none` means this slice does not
produce the frame (the request falls through to event dispatch). -/
def handle_action_request (registry : List (String × ActionRet))
    (method : String) (reqId : Int) : Option Frame :=
  if pyStartsWith method "flogin.action" then
    match process_action registry method with
    | some resp => some { id := reqId, body := .executeResult resp.hide }
    | none => none
  else none

/-! ## Outbound request-id assignment (`jsonrpc/client.py`, lines 47-65, 122) -/

/-- The slice of `JsonRPCClient` state that decides outbound id assignment:
`self._current_request_id` and the key set of `self.requests`. -/
structure IdState where
  currentRequestId : Int
  pending : List Int
  deriving DecidableEq, Repr

/-- `JsonRPCClient.__init__`: `self._current_request_id = 1`,
`self.requests = {}`. -/
def initIdState : IdState := { currentRequestId := 1, pending := [] }

/-- The operations that touch this state: `request()` reads the `request_id`
property (increment, then return) and stores a fresh future under the new id;
`handle_request` executes `self.request_id = request["id"]` for every inbound
request; `handle_result` / `handle_error` pop a pending id. -/
inductive ClientOp
  | outbound
  | inboundRequest (hostId : Int)
  | resolve (rid : Int)
  deriving DecidableEq, Repr

/-- One step; the second component is the outbound id assigned, when the op is
`request()`.  `self.requests[rid] = fut` is a dict key write: the key set
gains `rid` if absent. -/
def IdState.step : IdState → ClientOp → IdState × Option Int
  | s, .outbound =>
    let rid := s.currentRequestId + 1
    ({ currentRequestId := rid,
       pending := if rid ∈ s.pending then s.pending else s.pending ++ [rid] },
     some rid)
  | s, .inboundRequest h => ({ s with currentRequestId := h }, none)
  | s, .resolve rid => ({ s with pending := s.pending.filter (fun x => ¬x = rid) }, none)

/-- The outbound ids assigned along a run. -/
def assignedIds (s : IdState) : List ClientOp → List Int
  | [] => []
  | op :: ops => (s.step op).2.toList ++ assignedIds (s.step op).1 ops

/-- Whether this one op is a `request()` call assigned an id that still has a
pending call outstanding at the moment of assignment (the id the property
returns is `currentRequestId + 1`). -/
def stepReuses (s : IdState) : ClientOp → Bool
  | .outbound => s.currentRequestId + 1 ∈ s.pending
  | _ => false

/-- Whether some `request()` call along the run was assigned an id that still
had a pending call outstanding at the moment of assignment. -/
def reusesPendingId (s : IdState) : List ClientOp → Bool
  | [] => false
  | op :: ops => stepReuses s op || reusesPendingId (s.step op).1 ops

/-- `true` for the op that models an inbound request being processed. -/
def ClientOp.isInbound : ClientOp → Bool
  | .inboundRequest _ => true
  | _ => false

/-! ## Resolving outbound responses (`jsonrpc/client.py`, `handle_result`) -/

/-- An `asyncio.Future` as `handle_result` can observe it: not yet resolved,
or already carrying a result (in which case `set_result` raises
`InvalidStateError`). -/
inductive FutState
  | unset
  | set (v : Nat)
  deriving DecidableEq, Repr

/-- The outbound half of the client state for `handle_result`: the pending
table `self.requests` (id ↦ future), plus the values successful `set_result`
calls have delivered to the awaiting callers (payloads reduced to opaque
numbers). -/
structure OutboundState where
  requests : List (Int × FutState)
  delivered : List (Int × Nat)
  deriving DecidableEq, Repr

/-- What one `handle_result` call did. -/
inductive ResultOutcome
  | resolved
  | droppedInvalidState
  | loggedUnknown
  deriving DecidableEq, Repr

/-- `JsonRPCClient.handle_result` (`jsonrpc/client.py`, lines 83-95): when the
id has a pending entry, pop it and `set_result`, swallowing
`InvalidStateError` if the future was already resolved; otherwise log
"Result from unknown request given" and change nothing.  Total: no branch
raises. -/
def handle_result (s : OutboundState) (rid : Int) (v : Nat) :
    OutboundState × ResultOutcome :=
  match s.requests.lookup rid with
  | some fut =>
    let requests' := s.requests.filter (fun e => ¬e.1 = rid)
    match fut with
    | .unset => ({ requests := requests', delivered := s.delivered ++ [(rid, v)] }, .resolved)
    | .set _ => ({ requests := requests', delivered := s.delivered }, .droppedInvalidState)
  | none => (s, .loggedUnknown)

/-! ## In-flight task table and cancellation
(`jsonrpc/client.py`, `handle_request` / `handle_cancellation`;
`plugin.py`, `_run_event`) -/

/-- What `await task` in `handle_request` yields once the task ends: a
`BaseResponse` value, `None`, some other non-response value, or a
`CancelledError` (the task itself ended cancelled). -/
inductive TaskValue
  | response (r : RespBody)
  | noneV
  | other
  | cancelledErr
  deriving DecidableEq, Repr

/-- How far the asyncio task wrapping `Plugin._run_event` has got at the
moment a cancellation notification for it is processed; cooperative
scheduling means the notification runs between steps of the task. -/
inductive TaskPhase
  | notStarted
  | suspended
  | finished (v : TaskValue)
  deriving DecidableEq, Repr

/-- The effect of `task.cancel()` on the task, combining asyncio semantics
with `Plugin._run_event` (`plugin.py`, lines 206-223): a task whose coroutine
has not started ends cancelled (the thrown `CancelledError` is not caught,
the body never runs); a task suspended at an `await` inside the handler body
has `CancelledError` raised there, which `_run_event` catches
(`except asyncio.CancelledError: pass`) so the task completes normally with
`None`; a finished task is unaffected (`cancel()` returns `False`). -/
def cancelTask : TaskPhase → TaskPhase
  | .notStarted => .finished .cancelledErr
  | .suspended => .finished .noneV
  | .finished v => .finished v

/-- The tail of `JsonRPCClient.handle_request` (`jsonrpc/client.py`, lines
139-149) from `result = await task` on: a raised `CancelledError` propagates
out of `handle_request` and nothing is written; a `BaseResponse` is written
addressed to the request's id; any other value makes `handle_request` write
`InternalError("Internal Error: Invalid Response Object", ...)` addressed to
the request's id.  Returns the frames written. -/
def handle_request_finish (reqId : Int) : TaskValue → List Frame
  | .cancelledErr => []
  | .response r => [{ id := reqId, body := r }]
  | .noneV =>
    [{ id := reqId,
       body := .error ErrorCode.internal_error "Internal Error: Invalid Response Object" }]
  | .other =>
    [{ id := reqId,
       body := .error ErrorCode.internal_error "Internal Error: Invalid Response Object" }]

/-- The frames written back for an inbound request of id `reqId` whose task a
cancellation notification reaches while the task is at `phase`: the task
transitions per `cancelTask`, runs no further handler code, and
`handle_request` resumes on the final value. -/
def cancelledRequestFrames (reqId : Int) (phase : TaskPhase) : List Frame :=
  match cancelTask phase with
  | .finished v => handle_request_finish reqId v
  | _ => []

/-! ## The in-flight task table itself (`self.tasks`) -/

/-- Events that touch `self.tasks`, the table of in-flight inbound-request
tasks: `register` is the dict write `self.tasks[request["id"]] = task` in
`handle_request` (line 138); `bodyStart` marks the handler body beginning to
execute (the created task's first step); `finishSuccess` / `finishError` mark
the handler finishing and `handle_request` writing the response —
`handle_request` performs no pop; `cancelNotify` is `handle_cancellation`. -/
inductive TableEv
  | register (id : Int)
  | bodyStart (id : Int)
  | finishSuccess (id : Int)
  | finishError (id : Int)
  | cancelNotify (id : Int)
  deriving DecidableEq, Repr

/-- One event's effect on the key set of `self.tasks`
(`ignore` is the `ignore_cancellation_requests` option):
registration inserts the key; the task finishing leaves the table untouched
(no pop anywhere in `handle_request`); `handle_cancellation`
(`jsonrpc/client.py`, lines 67-81) pops the id when present — whether or not
`task.cancel()` then succeeds — and only logs when the id is unknown or
cancellations are ignored. -/
def tableStep (ignore : Bool) (tbl : List Int) : TableEv → List Int
  | .register id => if id ∈ tbl then tbl else tbl ++ [id]
  | .bodyStart _ => tbl
  | .finishSuccess _ => tbl
  | .finishError _ => tbl
  | .cancelNotify id => if ignore then tbl else tbl.filter (fun x => ¬x = id)

/-- Run a sequence of table events. -/
def runTable (ignore : Bool) (tbl : List Int) : List TableEv → List Int
  | [] => tbl
  | ev :: evs => runTable ignore (tableStep ignore tbl ev) evs

/-- The table events one dispatched inbound request generates when it runs to
completion without cancellation: `handle_request` creates the task and writes
it into `self.tasks` before its first suspension point (`await task`), and
asyncio only starts the created task after the creator suspends, so
registration precedes the handler body; the finish event carries how the
handler ended. -/
def dispatchedRequestEvents (id : Int) (failed : Bool) : List TableEv :=
  [.register id, .bodyStart id, if failed then .finishError id else .finishSuccess id]

/-! ## Concrete instances used by witnesses -/

/-- An outbound state with one pending, unresolved call of id 3. -/
def dupResState : OutboundState := { requests := [(3, FutState.unset)], delivered := [] }

/-- Three registered search handlers of which only the second and third match;
used to witness first-match-wins. -/
def c6handlers : List SearchHandler :=
  [{ cond := fun _ => false, callback := fun _ => .noneV },
   { cond := fun _ => true, callback := fun _ => .single (.str "b") },
   { cond := fun _ => true, callback := fun _ => .single (.str "c") }]

/-- A concrete query payload. -/
def c6query : RawQuery :=
  { search := "foo", rawQuery := "kw foo", isReQuery := false, actionKeyword := "kw" }

/-- Two sub-conditions that both hold: the first produces auxiliary data, the
second none; used to witness the `AllCondition` capture. -/
def c9conds : List Cond :=
  [{ ident := 0, run := fun _ _ => (true, some (.base 1)) },
   { ident := 1, run := fun _ _ => (true, none) }]

/-! # Theorems -/

/-- Python `dict` lookup after deleting a key never finds that key. -/
theorem lookup_filter_ne {α : Type} (l : List (Int × α)) (k : Int) :
    (l.filter (fun e => ¬e.1 = k)).lookup k = none := by
  induction l with
  | nil => rfl
  | cons e t ih =>
    by_cases h : e.1 = k
    · simpa [List.filter_cons, h] using ih
    · have hne : (k == e.1) = false := by
        simp only [beq_eq_false_iff_ne, ne_eq]
        exact fun hk => h hk.symm
      simp only [List.filter_cons, h, decide_not, decide_eq_true_eq, if_pos, decide_False,
        Bool.not_false, if_true, List.lookup, hne]
      simpa using ih

/-- Appending a fresh key to an association list makes it found. -/
theorem lookup_append_last {α : Type} (l : List (Int × α)) (k : Int) (v : α)
    (h : l.lookup k = none) : (l ++ [(k, v)]).lookup k = some v := by
  induction l with
  | nil => simp [List.lookup]
  | cons e t ih =>
    rw [show e :: t ++ [(k, v)] = e :: (t ++ [(k, v)]) from rfl]
    rw [List.lookup_cons] at h ⊢
    cases hk : (k == e.1) with
    | true => rw [hk] at h; exact absurd h (by simp)
    | false => rw [hk] at h; exact ih h

/-- C10: `Query.keyword` returns the host-supplied `actionKeyword` when it is
a non-empty string, returns the wildcard `"*"` when it is empty (the only
falsy `str`), and is therefore never the empty string. -/
theorem c10_keyword_wildcard (d : RawQuery) :
    (d.actionKeyword ≠ "" → Query.keyword d = d.actionKeyword) ∧
    (d.actionKeyword = "" → Query.keyword d = "*") ∧
    Query.keyword d ≠ "" := by
  unfold Query.keyword
  by_cases h : d.actionKeyword = "" <;> simp [h]

/-- Witness for C10 at two concrete queries: an empty `actionKeyword` yields
`"*"`, a non-empty one is returned as-is. -/
theorem c10_witness :
    Query.keyword { search := "foo", rawQuery := "foo", isReQuery := false, actionKeyword := "" } = "*" ∧
    Query.keyword { search := "foo", rawQuery := "kw foo", isReQuery := false, actionKeyword := "kw" } = "kw" :=
  ⟨(c10_keyword_wildcard _).2.1 rfl, (c10_keyword_wildcard _).1 (by decide)⟩

/-- C1: the five fixed protocol codes do map to their dedicated classes, but
the host-error claim fails on the code: the reserved-range test compares
`server_error_start ≤ code ≤ server_error_end`, i.e. `-32000 ≤ code ≤ -32099`,
which no integer satisfies, so codes inside -32099..-32000 (here -32050,
-32099 and -32000 itself) fall through to the generic exception and
`FlowError` is never produced for any code — contradicting the claim, the
docstrings of `FlowError`, and `tests/jsonrpc/test_errors.py`, which expects
`FlowError` for every code in `range(-32099, -32000)` and for
`ErrorCode.server_error`. -/
theorem c1_flow_error_never_built :
    get_exception_from_json (-32700) = { cls := .parserError, code := -32700 } ∧
    get_exception_from_json (-32600) = { cls := .invalidRequest, code := -32600 } ∧
    get_exception_from_json (-32601) = { cls := .methodNotFound, code := -32601 } ∧
    get_exception_from_json (-32602) = { cls := .invalidParams, code := -32602 } ∧
    get_exception_from_json (-32603) = { cls := .internalError, code := -32603 } ∧
    get_exception_from_json (-32050) = { cls := .generic, code := -32050 } ∧
    get_exception_from_json (-32000) = { cls := .generic, code := -32000 } ∧
    get_exception_from_json (-32099) = { cls := .generic, code := -32099 } ∧
    get_exception_from_json 7 = { cls := .generic, code := 7 } ∧
    ∀ code : Int, (get_exception_from_json code).cls ∈
      [ExcClass.parserError, .invalidParams, .invalidRequest, .methodNotFound,
       .internalError, .generic] := by
  refine ⟨by decide, by decide, by decide, by decide, by decide, by decide, by decide,
    by decide, by decide, ?_⟩
  intro c
  unfold get_exception_from_json
  simp only
  cases h : ([ExcClass.parserError, .invalidParams, .invalidRequest, .methodNotFound,
      .internalError].find? (fun cls => c = cls.fixedCode)) with
  | none =>
    simp only [h]
    split
    · rename_i hc
      exfalso
      simp [ErrorCode.server_error_start, ErrorCode.server_error_end] at hc
      omega
    · simp
  | some cls =>
    simp only [h]
    have hmem := List.mem_of_find?_eq_some h
    simp only [List.mem_cons, List.mem_singleton] at hmem
    rcases hmem with rfl | rfl | rfl | rfl | rfl | h0 <;> simp_all

/-- C5: result normalization maps `None` to the empty list, a bare string to
exactly one `Result` titled with it, a list to the elementwise
`Result.from_anything` image (same order, same length, no deduplication or
reordering), and returns an `ErrorResponse` unchanged. -/
theorem c5_result_normalization (s : String) (items : List ConvItem) (e : ErrorResponse) :
    coro_or_gen_to_results .noneV = .inl [] ∧
    coro_or_gen_to_results (.single (.str s)) =
      .inl [{ title := some s, sub := none, icon := none }] ∧
    coro_or_gen_to_results (.list items) = .inl (items.map Result.from_anything) ∧
    (items.map Result.from_anything).length = items.length ∧
    coro_or_gen_to_results (.errorResponse e) = .inr e := by
  exact ⟨rfl, rfl, rfl, by simp, rfl⟩

/-- C8: with a pending unresolved call under `rid`, the first `handle_result`
resolves it with `v1`; a second delivery for the same id finds no pending
entry (the first one popped it), changes nothing, is reported as the logged
unknown-request anomaly, and the value delivered to the caller stays `v1`.
No branch of `handle_result` raises. -/
theorem c8_duplicate_resolution (s : OutboundState) (rid : Int) (v1 v2 : Nat)
    (hpend : s.requests.lookup rid = some .unset)
    (hfresh : s.delivered.lookup rid = none) :
    ((handle_result s rid v1).2 = .resolved ∧
      (handle_result s rid v1).1.delivered.lookup rid = some v1) ∧
    (handle_result (handle_result s rid v1).1 rid v2).1 = (handle_result s rid v1).1 ∧
    (handle_result (handle_result s rid v1).1 rid v2).2 = .loggedUnknown ∧
    (handle_result (handle_result s rid v1).1 rid v2).1.delivered.lookup rid = some v1 := by
  have h1 : handle_result s rid v1 =
      (OutboundState.mk (s.requests.filter fun e => ¬e.1 = rid)
        (s.delivered ++ [(rid, v1)]), ResultOutcome.resolved) := by
    unfold handle_result
    rw [hpend]
  have hdel : (s.delivered ++ [(rid, v1)]).lookup rid = some v1 :=
    lookup_append_last _ _ _ hfresh
  have h2 : handle_result (OutboundState.mk (s.requests.filter fun e => ¬e.1 = rid)
        (s.delivered ++ [(rid, v1)])) rid v2 =
      (OutboundState.mk (s.requests.filter fun e => ¬e.1 = rid)
        (s.delivered ++ [(rid, v1)]), ResultOutcome.loggedUnknown) := by
    unfold handle_result
    rw [lookup_filter_ne]
  rw [h1]
  refine ⟨⟨rfl, hdel⟩, ?_, ?_, ?_⟩
  · rw [h2]
  · rw [h2]
  · rw [h2]
    exact hdel

/-- `str.startswith` holds on an appended prefix. -/
theorem pyStartsWith_append (p s : String) : pyStartsWith (p ++ s) p = true := by
  unfold pyStartsWith
  rw [String.data_append, List.take_left]
  simp

/-- `str.removeprefix` strips an appended prefix exactly. -/
theorem pyRemovePfx_append (p s : String) : pyRemovePfx (p ++ s) p = s := by
  unfold pyRemovePfx
  rw [pyStartsWith_append]
  simp only [if_true]
  rw [String.data_append, List.drop_left]

/-- An action method also starts with the shorter, dot-less prefix
`handle_request` tests for. -/
theorem startsWith_action (slug : String) :
    pyStartsWith ("flogin.action." ++ slug) "flogin.action" = true := by
  unfold pyStartsWith
  rw [String.data_append]
  rw [List.take_append_eq_append_take]
  norm_num

/-- C7: for a request `flogin.action.<slug>` whose slug is registered, the
written frame is a success Response addressed to the request's id whose
`result.hide` is the wrapped callback value: `None` and `True` give
`hide = true`, `False` gives `hide = false`. -/
theorem c7_action_hide (registry : List (String × ActionRet)) (slug : String)
    (ret : ActionRet) (reqId : Int)
    (hreg : registry.lookup slug = some ret) :
    handle_action_request registry ("flogin.action." ++ slug) reqId =
      some { id := reqId, body := .executeResult (action_callback_wrapper ret).hide } ∧
    ((ret = .noneV ∨ ret = .bool true) → (action_callback_wrapper ret).hide = true) ∧
    (ret = .bool false → (action_callback_wrapper ret).hide = false) := by
  refine ⟨?_, ?_, ?_⟩
  · unfold handle_action_request
    rw [startsWith_action]
    simp only [if_true]
    unfold process_action
    rw [pyRemovePfx_append]
    simp only [hreg]
  · rintro (rfl | rfl) <;> rfl
  · rintro rfl; rfl

/-- Witness for C7 at the spec's scenario: slug `"abc"` registered with a
callback returning `True`, request id 9, produces `result.hide == true`
addressed to id 9. -/
theorem c7_witness :
    handle_action_request [("abc", ActionRet.bool true)] "flogin.action.abc" 9 =
      some { id := 9, body := .executeResult true } := by
  have h := (c7_action_hide [("abc", ActionRet.bool true)] "abc" (.bool true) 9 (by decide)).1
  rw [show ("flogin.action.abc" : String) = "flogin.action." ++ "abc" from rfl]
  exact h

/-- The loop of `process_search_handlers`: when the conditions before index
`k` are false and `k`'s is true, the loop stops at `k` having evaluated
exactly the first `k + 1` conditions, invoked only `k`'s callback, and
returns its normalized results. -/
theorem searchHandlersLoop_spec (q : RawQuery) (hs : List SearchHandler) :
    ∀ (idx k : Nat) (hk : k < hs.length),
    (∀ i (h : i < k), (hs.get ⟨i, Nat.lt_trans h hk⟩).cond q = false) →
    (hs.get ⟨k, hk⟩).cond q = true →
    searchHandlersLoop q hs idx =
      (coro_or_gen_to_results ((hs.get ⟨k, hk⟩).callback q), idx + k + 1, some (idx + k)) := by
  induction hs with
  | nil =>
    intro idx k hk
    exact absurd hk (by simp)
  | cons h t ih =>
    intro idx k hk hbefore hmatch
    cases k with
    | zero =>
      simp only [List.get] at hmatch
      unfold searchHandlersLoop
      rw [hmatch]
      simp
    | succ k =>
      have h0 : h.cond q = false := hbefore 0 (Nat.succ_pos k)
      unfold searchHandlersLoop
      rw [h0]
      simp only [Bool.false_eq_true, if_false]
      have ihh := ih (idx + 1) k (Nat.lt_of_succ_lt_succ hk)
        (fun i hi => hbefore (i + 1) (Nat.succ_lt_succ hi)) hmatch
      rw [ihh]
      simp only [Prod.mk.injEq]
      refine ⟨rfl, by omega, ?_⟩
      rw [show idx + 1 + k = idx + (k + 1) from by omega]

/-- C6: conditions are evaluated in registration order, the first handler
whose condition is true supplies the entire result list of the response, and
neither conditions nor callbacks of later handlers are invoked: exactly
`k + 1` conditions are evaluated and the only callback run is handler `k`'s. -/
theorem c6_first_match_wins (handlers : List SearchHandler) (q : RawQuery) (k : Nat)
    (hk : k < handlers.length)
    (hbefore : ∀ i (h : i < k), (handlers.get ⟨i, Nat.lt_trans h hk⟩).cond q = false)
    (hmatch : (handlers.get ⟨k, hk⟩).cond q = true) :
    (process_search_handlers handlers q).2.1 = k + 1 ∧
    (process_search_handlers handlers q).2.2 = some k ∧
    (process_search_handlers handlers q).1 =
      (match coro_or_gen_to_results ((handlers.get ⟨k, hk⟩).callback q) with
       | .inl results => .inl { results := results }
       | .inr e => .inr e) := by
  have h := searchHandlersLoop_spec q handlers 0 k hk hbefore hmatch
  unfold process_search_handlers
  rw [h]
  dsimp only
  refine ⟨by omega, by rw [Nat.zero_add], rfl⟩

/-- Witness for C6 at the spec's scenario: of three handlers only the second
(and third) match, so the response is built solely from the second handler's
callback, two conditions are evaluated and only callback 1 is invoked. -/
theorem c6_witness :
    (process_search_handlers c6handlers c6query).2.1 = 2 ∧
    (process_search_handlers c6handlers c6query).2.2 = some 1 ∧
    (process_search_handlers c6handlers c6query).1 =
      .inl { results := [{ title := some "b", sub := none, icon := none }] } := by
  have h := c6_first_match_wins c6handlers c6query 1 (by simp [c6handlers])
    (fun i hi => by
      cases i with
      | zero => rfl
      | succ n => exact absurd hi (by omega))
    rfl
  exact ⟨h.1, h.2.1, by rw [h.2.2]; rfl⟩

/-- Witness for C8: a state with pending call 3 resolved with 11, then a
duplicate delivery with 22, leaves 11 delivered and reports the anomaly. -/
theorem c8_witness :
    ((handle_result dupResState 3 11).2 = .resolved ∧
      (handle_result dupResState 3 11).1.delivered.lookup 3 = some 11) ∧
    (handle_result (handle_result dupResState 3 11).1 3 22).1
      = (handle_result dupResState 3 11).1 ∧
    (handle_result (handle_result dupResState 3 11).1 3 22).2 = .loggedUnknown ∧
    (handle_result (handle_result dupResState 3 11).1 3 22).1.delivered.lookup 3 = some 11 :=
  c8_duplicate_resolution dupResState 3 11 22 (by decide) (by decide)


/-- Every slot the loop passes to a sub-condition after a reset is `None`,
and so is every later one. -/
theorem entrySlots_none (q : RawQuery) (cs : List Cond) :
    ∀ s ∈ AllCondition.entrySlots q cs none, s = none := by
  induction cs with
  | nil =>
    intro s hs
    simp [AllCondition.entrySlots] at hs
  | cons c t ih =>
    intro s hs
    unfold AllCondition.entrySlots at hs
    by_cases h : (c.run q none).1 = false
    · simp [h] at hs
      exact hs
    · simp [h] at hs
      rcases hs with rfl | hs
      · rfl
      · exact ih s hs

/-- Whatever the slot holds initially, every sub-condition after the first
observes `None` on entry. -/
theorem entrySlots_tail_none (q : RawQuery) (conds : List Cond) (slot0 : Option CData) :
    ∀ s ∈ (AllCondition.entrySlots q conds slot0).tail, s = none := by
  cases conds with
  | nil =>
    intro s hs
    simp [AllCondition.entrySlots] at hs
  | cons c t =>
    intro s hs
    unfold AllCondition.entrySlots at hs
    by_cases h : (c.run q slot0).1 = false
    · simp [h] at hs
    · simp [h] at hs
      exact entrySlots_none q t s hs

/-- The `AllCondition` loop, started with a clean slot and an accumulator
whose keys avoid the idents of the remaining sub-conditions, succeeds and
appends one entry per sub-condition in order. -/
theorem all_go_spec (q : RawQuery) (conds : List Cond) :
    ∀ (acc : List (Nat × Option CData)),
    (∀ c ∈ conds, (c.run q none).1 = true) →
    (∀ c ∈ conds, ∀ e ∈ acc, ¬e.1 = c.ident) →
    (conds.map Cond.ident).Nodup →
    AllCondition.go q conds none acc =
      (true, some (.dict (acc ++ conds.map (fun c => (c.ident, (c.run q none).2))))) := by
  induction conds with
  | nil =>
    intro acc _ _ _
    simp [AllCondition.go]
  | cons c t ih =>
    intro acc htrue hdisj hnodup
    have hc : (c.run q none).1 = true := htrue c (by simp)
    have hany : acc.any (fun e => e.1 = c.ident) = false := by
      rw [List.any_eq_false]
      intro e he
      simp only [decide_eq_true_eq]
      exact hdisj c (by simp) e he
    have hassign : dictAssign acc c.ident (c.run q none).2
        = acc ++ [(c.ident, (c.run q none).2)] := by
      unfold dictAssign
      rw [hany]
      simp
    have hmemt : c.ident ∉ t.map Cond.ident := by
      simp only [List.map_cons, List.nodup_cons] at hnodup
      exact hnodup.1
    have ihh := ih (acc ++ [(c.ident, (c.run q none).2)])
      (fun c' hc' => htrue c' (by simp [hc']))
      (fun c' hc' e he => by
        rcases List.mem_append.mp he with he | he
        · exact hdisj c' (by simp [hc']) e he
        · simp only [List.mem_singleton] at he
          subst he
          simp only
          intro heq
          exact hmemt (heq ▸ List.mem_map_of_mem Cond.ident hc')
      )
      (by simp only [List.map_cons, List.nodup_cons] at hnodup; exact hnodup.2)
    unfold AllCondition.go
    dsimp only
    rw [hc]
    simp only [Bool.true_eq_false, if_false, hassign, ihh]
    rw [List.append_assoc]
    rfl

/-- C9: when every sub-condition of an `AllCondition` returns true on a query
whose slot starts clean, the call succeeds and the final `condition_data` is
the mapping from each sub-condition (in order, keyed by its identity) to the
data it produced, and the slot handed to every sub-condition after the first
is `None` — no stale data leaks between sub-conditions. -/
theorem c9_all_condition (conds : List Cond) (q : RawQuery)
    (htrue : ∀ c ∈ conds, (c.run q none).1 = true)
    (hnodup : (conds.map Cond.ident).Nodup) :
    AllCondition.call conds q none =
      (true, some (.dict (conds.map (fun c => (c.ident, (c.run q none).2))))) ∧
    ∀ slot0 s, s ∈ (AllCondition.entrySlots q conds slot0).tail → s = none := by
  refine ⟨?_, fun slot0 s hs => entrySlots_tail_none q conds slot0 s hs⟩
  unfold AllCondition.call
  have h := all_go_spec q conds [] htrue (by simp) hnodup
  simpa using h

/-- Witness for C9: two always-true sub-conditions; the final slot maps the
first to its data and the second to `None`. -/
theorem c9_witness :
    AllCondition.call c9conds c6query none =
      (true, some (.dict [(0, some (.base 1)), (1, none)])) := by
  have h := (c9_all_condition c9conds c6query
    (by
      intro c hc
      simp only [c9conds, List.mem_cons, List.not_mem_nil, or_false] at hc
      rcases hc with rfl | rfl <;> rfl)
    (by simp [c9conds])).1
  rw [h]
  rfl


/-- C3 counterexample: the claim fails once an inbound request is processed
between two outbound calls.  `handle_request` executes
`self.request_id = request["id"]`, so after an outbound call was assigned
id 2, an inbound request with host id 1 resets the counter and the next
outbound call is assigned id 2 again — while the pending call for id 2 is
still outstanding; the assigned sequence `[2, 2]` is not strictly
increasing. -/
theorem c3_counterexample :
    assignedIds initIdState
        [.outbound, .inboundRequest 1, .outbound] = [2, 2] ∧
    reusesPendingId initIdState
        [.outbound, .inboundRequest 1, .outbound] = true ∧
    ¬List.Chain' (fun a b => a < b) [(2 : Int), 2] := by
  refine ⟨by decide, by decide, ?_⟩
  intro hch
  rw [List.chain'_cons] at hch
  exact absurd hch.1 (by omega)

/-- C3 as amended: across any sequence of operations that processes no
inbound request (outbound calls and resolutions only), outbound ids are
strictly monotonically increasing, exceed the starting counter, and are
never assigned while a pending call for the same id is outstanding; the
invariant is that every pending id is at most the current counter. -/
theorem c3_amended (s : IdState) (ops : List ClientOp)
    (hno : ∀ op ∈ ops, op.isInbound = false)
    (hinv : ∀ p ∈ s.pending, p ≤ s.currentRequestId) :
    List.Chain' (fun a b => a < b) (assignedIds s ops) ∧
    (∀ a ∈ assignedIds s ops, s.currentRequestId < a) ∧
    reusesPendingId s ops = false := by
  induction ops generalizing s with
  | nil => exact ⟨List.chain'_nil, by simp [assignedIds], rfl⟩
  | cons op ops ih =>
    cases op with
    | outbound =>
      have hnotmem : s.currentRequestId + 1 ∉ s.pending := by
        intro hmem
        have := hinv _ hmem
        omega
      have hstep : s.step .outbound =
          ({ currentRequestId := s.currentRequestId + 1,
             pending := s.pending ++ [s.currentRequestId + 1] }, some (s.currentRequestId + 1)) := by
        unfold IdState.step
        dsimp only
        rw [if_neg hnotmem]
      have hinv' : ∀ p ∈ s.pending ++ [s.currentRequestId + 1], p ≤ s.currentRequestId + 1 := by
        intro p hp
        rcases List.mem_append.mp hp with hp | hp
        · have := hinv p hp
          omega
        · simp only [List.mem_singleton] at hp
          omega
      have ihh := ih { currentRequestId := s.currentRequestId + 1,
                       pending := s.pending ++ [s.currentRequestId + 1] }
        (fun o ho => hno o (by simp [ho])) hinv'
      simp only [assignedIds, reusesPendingId, hstep, Option.toList, List.singleton_append]
      refine ⟨?_, ?_, ?_⟩
      · rw [List.chain'_cons']
        refine ⟨?_, ihh.1⟩
        intro y hy
        exact ihh.2.1 y (List.mem_of_mem_head? hy)
      · intro a ha
        rcases List.mem_cons.mp ha with rfl | ha
        · omega
        · have h2 := ihh.2.1 a ha
          dsimp only at h2
          omega
      · rw [Bool.or_eq_false_iff]
        constructor
        · unfold stepReuses
          simpa using hnotmem
        · exact ihh.2.2
    | inboundRequest h =>
      have h0 := hno (.inboundRequest h) (List.mem_cons_self _ _)
      simp [ClientOp.isInbound] at h0
    | resolve rid =>
      have hinv' : ∀ p ∈ s.pending.filter (fun x => ¬x = rid), p ≤ s.currentRequestId :=
        fun p hp => hinv p (List.mem_of_mem_filter hp)
      have ihh := ih { s with pending := s.pending.filter (fun x => ¬x = rid) }
        (fun o ho => hno o (by simp [ho])) hinv'
      have e1 : assignedIds s (ClientOp.resolve rid :: ops)
          = assignedIds { s with pending := s.pending.filter (fun x => ¬x = rid) } ops := rfl
      have e2 : reusesPendingId s (ClientOp.resolve rid :: ops)
          = reusesPendingId { s with pending := s.pending.filter (fun x => ¬x = rid) } ops := rfl
      rw [e1, e2]
      exact ⟨ihh.1, fun a ha => ihh.2.1 a ha, ihh.2.2⟩

/-- Witness for the amended C3: two outbound calls with a resolution in
between are assigned strictly increasing ids without reuse. -/
theorem c3_witness :
    List.Chain' (fun a b => a < b)
      (assignedIds initIdState [.outbound, .resolve 2, .outbound]) ∧
    reusesPendingId initIdState [.outbound, .resolve 2, .outbound] = false :=
  ⟨(c3_amended initIdState [.outbound, .resolve 2, .outbound]
      (by intro op hop; fin_cases hop <;> rfl) (by simp [initIdState])).1,
   (c3_amended initIdState [.outbound, .resolve 2, .outbound]
      (by intro op hop; fin_cases hop <;> rfl) (by simp [initIdState])).2.2⟩

/-- C2: a cancellation that reaches the task before its body starts indeed
produces no frame, but a cancellation that reaches it while the handler is
suspended at an await makes `_run_event` swallow the `CancelledError` and
return `None`, which `handle_request` then treats as an invalid response
object and answers with an `InternalError` error frame addressed to the
request's id — a Response is written for the cancelled request, contradicting
the claim. -/
theorem c2_cancelled_request_response :
    cancelledRequestFrames 5 .notStarted = [] ∧
    cancelledRequestFrames 5 .suspended =
      [{ id := 5,
         body := .error ErrorCode.internal_error "Internal Error: Invalid Response Object" }] ∧
    ∀ reqId : Int, cancelledRequestFrames reqId .suspended =
      [{ id := reqId,
         body := .error ErrorCode.internal_error "Internal Error: Invalid Response Object" }] :=
  ⟨rfl, rfl, fun _ => rfl⟩

/-- C4 counterexample: an inbound request of id 5 that runs to completion —
by success or through the error path — leaves its entry in `self.tasks`; the
table is `[5]` after the handler finishes, so the entry is not removed when
the handler finishes. -/
theorem c4_counterexample :
    runTable false [] (dispatchedRequestEvents 5 false) = [5] ∧
    runTable false [] (dispatchedRequestEvents 5 true) = [5] := by
  refine ⟨by decide, by decide⟩

/-- Deleting a key from the task table is idempotent. -/
theorem filter_ne_idem (l : List Int) (k : Int) :
    (l.filter (fun x => ¬x = k)).filter (fun x => ¬x = k) = l.filter (fun x => ¬x = k) := by
  induction l with
  | nil => rfl
  | cons a t ih =>
    by_cases h : a = k
    · simp [List.filter_cons, h, ih]
    · simp [List.filter_cons, h, ih]

/-- Deleting an absent key leaves the table unchanged. -/
theorem filter_ne_of_not_mem (l : List Int) (k : Int) (h : k ∉ l) :
    l.filter (fun x => ¬x = k) = l := by
  induction l with
  | nil => rfl
  | cons a t ih =>
    simp only [List.mem_cons, not_or] at h
    have ha : ¬a = k := fun heq => h.1 heq.symm
    have hd : decide (¬a = k) = true := decide_eq_true ha
    rw [List.filter_cons, hd, if_pos rfl, ih h.2]

/-- C4 as amended: the id is registered in `self.tasks` before the handler
body starts (it is in the table once the `register` write runs, which
precedes `bodyStart` in the dispatched trace), a handler finishing by success
or error leaves the table untouched (the entry is still present after the
full trace), and the only removal is `handle_cancellation`: it removes the id
when present, removing again is a no-op, and a cancellation for an unknown id
leaves the table unchanged (logged anomaly). -/
theorem c4_amended (tbl : List Int) (id : Int) :
    (∀ f : Bool, id ∈ runTable false tbl (List.take 2 (dispatchedRequestEvents id f))) ∧
    tableStep false tbl (.finishSuccess id) = tbl ∧
    tableStep false tbl (.finishError id) = tbl ∧
    (∀ f : Bool, id ∈ runTable false tbl (dispatchedRequestEvents id f)) ∧
    id ∉ tableStep false tbl (.cancelNotify id) ∧
    tableStep false (tableStep false tbl (.cancelNotify id)) (.cancelNotify id)
      = tableStep false tbl (.cancelNotify id) ∧
    (id ∉ tbl → tableStep false tbl (.cancelNotify id) = tbl) := by
  have hreg : id ∈ tableStep false tbl (.register id) := by
    unfold tableStep
    dsimp only
    by_cases h : id ∈ tbl
    · rw [if_pos h]
      exact h
    · rw [if_neg h]
      simp
  have hcancel : tableStep false tbl (.cancelNotify id) = tbl.filter (fun x => ¬x = id) := rfl
  refine ⟨?_, rfl, rfl, ?_, ?_, ?_, ?_⟩
  · intro f
    cases f <;> exact hreg
  · intro f
    cases f <;> exact hreg
  · rw [hcancel]
    intro hmem
    have := List.of_mem_filter hmem
    simp at this
  · rw [hcancel]
    show (tbl.filter (fun x => ¬x = id)).filter (fun x => ¬x = id) = tbl.filter (fun x => ¬x = id)
    exact filter_ne_idem tbl id
  · intro hni
    rw [hcancel]
    exact filter_ne_of_not_mem tbl id hni

/-- Witness for the amended C4 on the empty table: id 5 is registered when
its body starts, and cancelling an unknown id is a no-op. -/
theorem c4_witness :
    5 ∈ runTable false [] (List.take 2 (dispatchedRequestEvents 5 false)) ∧
    tableStep false ([] : List Int) (.cancelNotify 5) = [] :=
  ⟨(c4_amended [] 5).1 false, (c4_amended [] 5).2.2.2.2.2.2 (by decide)⟩

end Flogin
